import Mathlib

/-!
Verification of the `basics-cpp` teaching snippets.

Shallow embedding conventions:
* a C++ container traversed by iterators is embedded as a memory function
  `Nat → α` together with explicit index arguments (an iterator is its index);
* assignment through an iterator becomes a pointwise functional update;
* the move-aware struct `S` of `shift_left/index.cpp` is a Lean structure,
  and its copy/move assignment operators are embedded as updates on such a
  memory, so that the `this != &rhs` aliasing test of the source is the
  decidable index test `i = j`;
* `double` amounts of the account demo are embedded as exact rationals;
* `std::string` elements of the `move_backward` demo are embedded as
  `List Char`, a moved-from string being the empty list.
-/

namespace BasicsCpp

/-- The move-aware value wrapper of
`src/algorithms/modifyingSequenceOperations/shift_left/index.cpp`:
`struct S { int value{0}; bool specified_state{true}; ... }`. -/
structure S where
  value : Int
  specified_state : Bool
deriving DecidableEq

/-- `S(int v = 0) : value{v} {}` — the converting constructor: the
`specified_state` member keeps its default initializer `true`. -/
def S.ctor (v : Int) : S := { value := v, specified_state := true }

/-- `S(S const& rhs) = default;` — the defaulted copy constructor copies
both members of `rhs` and leaves `rhs` untouched. -/
def S.copyCtor (rhs : S) : S := { value := rhs.value, specified_state := rhs.specified_state }

/-- `S& operator=(S&& rhs)` embedded on a memory of `S` slots: `i` is the
slot of `*this` and `j` the slot of `rhs`; the source's guard
`if (this != &rhs)` is the test `i = j`.  In the distinct case the target
receives both members of `rhs` and then `rhs.specified_state = false`. -/
def moveS (mem : Nat → S) (i j : Nat) : Nat → S :=
  if i = j then mem
  else fun x =>
    if x = i then { value := (mem j).value, specified_state := (mem j).specified_state }
    else if x = j then { value := (mem j).value, specified_state := false }
    else mem x

/-- `S& operator=(S const& rhs) = default;` embedded on a memory of `S`
slots: memberwise copy into slot `i` from slot `j`, no aliasing guard. -/
def copyS (mem : Nat → S) (i j : Nat) : Nat → S :=
  fun x =>
    if x = i then { value := (mem j).value, specified_state := (mem j).specified_state }
    else mem x

/-- `S(S&& rhs) { *this = std::move(rhs); }` — default member initializers
run first (`value{0}`, `specified_state{true}`), then the move assignment
with `this != &rhs` necessarily true.  Returns (new object, rhs after). -/
def S.moveCtor (rhs : S) : S × S :=
  ({ value := rhs.value, specified_state := rhs.specified_state },
   { value := rhs.value, specified_state := false })

theorem moveS_self (mem : Nat → S) (i : Nat) : moveS mem i i = mem := by
  simp [moveS]

theorem moveS_ne (mem : Nat → S) (i j x : Nat) (hxi : x ≠ i) (hxj : x ≠ j) :
    moveS mem i j x = mem x := by
  unfold moveS
  split
  · rfl
  · simp [hxi, hxj]

theorem moveS_dst (mem : Nat → S) (i j : Nat) (hij : i ≠ j) :
    moveS mem i j i = mem j := by
  simp [moveS, hij]

theorem moveS_src (mem : Nat → S) (i j : Nat) (hij : i ≠ j) :
    moveS mem i j j = { value := (mem j).value, specified_state := false } := by
  simp [moveS, hij, Ne.symm hij]

/-- Modelled from the spec: the `std::move(first, last, d_first)` forward move
loop used by `std::shift_left`; the algorithm itself is not part of this
repository (`src/algorithms/modifyingSequenceOperations/shift_left/index.cpp`
only calls it).  Each step performs one move assignment of an `S` slot
(`moveS`, embedded from the `S::operator=(S&&)` in src) and advances both
iterators. -/
def moveSeq (mem : Nat → S) (first last d_first : Nat) : Nat → S :=
  if h : first < last then moveSeq (moveS mem d_first first) (first + 1) last (d_first + 1)
  else mem
termination_by last - first
decreasing_by omega

theorem moveSeq_pos (mem : Nat → S) (first last d_first : Nat) (h : first < last) :
    moveSeq mem first last d_first =
      moveSeq (moveS mem d_first first) (first + 1) last (d_first + 1) := by
  rw [moveSeq, dif_pos h]

theorem moveSeq_neg (mem : Nat → S) (first last d_first : Nat) (h : ¬ first < last) :
    moveSeq mem first last d_first = mem := by
  rw [moveSeq, dif_neg h]

/-- Frame: `moveSeq` leaves every slot outside the write range
`[d_first, d_first + (last - first))` and the read range `[first, last)`
unchanged. -/
theorem moveSeq_frame :
    ∀ (n : Nat) (mem : Nat → S) (first last d_first x : Nat),
      last - first ≤ n → d_first < first →
      (x < d_first ∨ (d_first + (last - first) ≤ x ∧ x < first) ∨ last ≤ x) →
      moveSeq mem first last d_first x = mem x := by
  intro n
  induction n with
  | zero =>
      intro mem first last d_first x h1 _ _
      rw [moveSeq_neg]
      omega
  | succ k ih =>
      intro mem first last d_first x h1 hdf hx
      by_cases h : first < last
      · rw [moveSeq_pos _ _ _ _ h]
        rw [ih _ _ _ _ _ (by omega) (by omega) (by omega)]
        exact moveS_ne _ _ _ _ (by omega) (by omega)
      · rw [moveSeq_neg _ _ _ _ h]

/-- Each slot of the destination range receives the original element at the
corresponding offset of the source range, provided the destination starts
strictly below the source. -/
theorem moveSeq_get :
    ∀ (n : Nat) (mem : Nat → S) (first last d_first : Nat),
      last - first ≤ n → d_first < first →
      ∀ j < last - first, moveSeq mem first last d_first (d_first + j) = mem (first + j) := by
  intro n
  induction n with
  | zero =>
      intro mem first last d_first h1 _ j hj
      omega
  | succ k ih =>
      intro mem first last d_first h1 hdf j hj
      have h : first < last := by omega
      rw [moveSeq_pos _ _ _ _ h]
      rcases Nat.eq_zero_or_pos j with hj0 | hj1
      · subst hj0
        rw [moveSeq_frame k _ _ _ _ _ (by omega) (by omega) (by omega)]
        simpa using moveS_dst mem d_first first (by omega)
      · have hidx : d_first + j = (d_first + 1) + (j - 1) := by omega
        rw [hidx, ih _ _ _ _ (by omega) (by omega) (j - 1) (by omega)]
        rw [moveS_ne _ _ _ _ (by omega) (by omega)]
        congr 1
        omega

/-- Every source slot at or beyond the end of the write range is left in the
moved-from state: original value, `specified_state = false`. -/
theorem moveSeq_movedFrom :
    ∀ (n : Nat) (mem : Nat → S) (first last d_first : Nat),
      last - first ≤ n → d_first < first →
      ∀ x, d_first + (last - first) ≤ x → first ≤ x → x < last →
        moveSeq mem first last d_first x =
          { value := (mem x).value, specified_state := false } := by
  intro n
  induction n with
  | zero =>
      intro mem first last d_first h1 _ x _ hx2 hx3
      omega
  | succ k ih =>
      intro mem first last d_first h1 hdf x hx1 hx2 hx3
      have h : first < last := by omega
      rw [moveSeq_pos _ _ _ _ h]
      rcases Nat.eq_or_lt_of_le hx2 with hx0 | hx4
      · rw [moveSeq_frame k _ _ _ _ _ (by omega) (by omega) (by omega)]
        rw [← hx0, moveS_src mem d_first first (by omega)]
      · rw [ih _ _ _ _ (by omega) (by omega) x (by omega) (by omega) hx3]
        rw [moveS_ne _ _ _ _ (by omega) (by omega)]

/-- Modelled from the spec: `std::shift_left(begin, end, n)` over a range of
length `len`; the algorithm's implementation is not part of this repository.
Per the contract, for `0 < n < len` it moves the elements at positions
`[n, len)` forward to positions `[0, len - n)` (a forward `std::move` loop
using the element type's move assignment); for `n = 0` or `n ≥ len` it is a
no-op. -/
def shift_left (mem : Nat → S) (len n : Nat) : Nat → S :=
  if n = 0 then mem
  else if len ≤ n then mem
  else moveSeq mem n len 0

/-- One step of the `move_backward` loop body
`*(--d_last) = std::move(*(--last));` on a memory of `std::string` slots
(a string is a `List Char`): the slot `d` receives the slot `l`'s contents
and the moved-from slot `l` becomes the empty string.  Aliased self-move
assignment (`d = l`) leaves the slot unchanged (the value is unspecified by
the standard; unchanged models the common library behavior). -/
def strMove (mem : Nat → List Char) (d l : Nat) : Nat → List Char :=
  if d = l then mem
  else fun x => if x = d then mem l else if x = l then [] else mem x

theorem strMove_ne (mem : Nat → List Char) (d l x : Nat) (hxd : x ≠ d) (hxl : x ≠ l) :
    strMove mem d l x = mem x := by
  unfold strMove
  split
  · rfl
  · simp [hxd, hxl]

theorem strMove_dst (mem : Nat → List Char) (d l : Nat) :
    strMove mem d l d = mem l := by
  unfold strMove
  split
  · rename_i h
    rw [h]
  · simp

/-- The `move_backward` template of
`src/algorithms/modifyingSequenceOperations/move_backward/index.cpp`:
`while (first != last) *(--d_last) = std::move(*(--last)); return d_last;`
over a memory of string slots, iterators being indices.  The loop guard is
embedded as `first < last` (the valid-range precondition of the source;
`first > last` is undefined behavior there). -/
def move_backward (mem : Nat → List Char) (first last d_last : Nat) :
    (Nat → List Char) × Nat :=
  if h : first < last then
    move_backward (strMove mem (d_last - 1) (last - 1)) first (last - 1) (d_last - 1)
  else (mem, d_last)
termination_by last - first
decreasing_by omega

theorem move_backward_pos (mem : Nat → List Char) (first last d_last : Nat)
    (h : first < last) :
    move_backward mem first last d_last =
      move_backward (strMove mem (d_last - 1) (last - 1)) first (last - 1) (d_last - 1) := by
  rw [move_backward, dif_pos h]

theorem move_backward_neg (mem : Nat → List Char) (first last d_last : Nat)
    (h : ¬ first < last) :
    move_backward mem first last d_last = (mem, d_last) := by
  rw [move_backward, dif_neg h]

/-- The returned iterator is always `d_last` minus the source length. -/
theorem move_backward_snd :
    ∀ (n : Nat) (mem : Nat → List Char) (first last d_last : Nat),
      last - first ≤ n →
      (move_backward mem first last d_last).2 = d_last - (last - first) := by
  intro n
  induction n with
  | zero =>
      intro mem first last d_last h1
      rw [move_backward_neg _ _ _ _ (by omega)]
      simp
      omega
  | succ k ih =>
      intro mem first last d_last h1
      by_cases h : first < last
      · rw [move_backward_pos _ _ _ _ h]
        rw [ih _ _ _ _ (by omega)]
        omega
      · rw [move_backward_neg _ _ _ _ h]
        simp
        omega

/-- Frame: `move_backward` leaves every slot outside the read range
`[first, last)` and the write range `[d_last - (last - first), d_last)`
unchanged, provided the write range fits (`last - first ≤ d_last`). -/
theorem move_backward_frame :
    ∀ (n : Nat) (mem : Nat → List Char) (first last d_last x : Nat),
      last - first ≤ n → last - first ≤ d_last →
      (x < first ∨ last ≤ x) →
      (x < d_last - (last - first) ∨ d_last ≤ x) →
      (move_backward mem first last d_last).1 x = mem x := by
  intro n
  induction n with
  | zero =>
      intro mem first last d_last x h1 _ _ _
      rw [move_backward_neg _ _ _ _ (by omega)]
  | succ k ih =>
      intro mem first last d_last x h1 hd hx1 hx2
      by_cases h : first < last
      · rw [move_backward_pos _ _ _ _ h]
        rw [ih _ _ _ _ _ (by omega) (by omega) (by omega) (by omega)]
        exact strMove_ne _ _ _ _ (by omega) (by omega)
      · rw [move_backward_neg _ _ _ _ h]

/-- Order preservation: provided the write range fits and either the whole
destination lies at or beyond `last` (tail-ward overlap allowed) or at or
below `first`, slot `d_last - (last - first) + i` of the result holds the
original element `first + i`. -/
theorem move_backward_get :
    ∀ (n : Nat) (mem : Nat → List Char) (first last d_last : Nat),
      last - first ≤ n → last - first ≤ d_last →
      (last ≤ d_last ∨ d_last ≤ first) →
      ∀ i < last - first,
        (move_backward mem first last d_last).1 (d_last - (last - first) + i) =
          mem (first + i) := by
  intro n
  induction n with
  | zero =>
      intro mem first last d_last h1 _ _ i hi
      omega
  | succ k ih =>
      intro mem first last d_last h1 hd hsep i hi
      have h : first < last := by omega
      rw [move_backward_pos _ _ _ _ h]
      by_cases hlast : i + 1 = last - first
      · have hidx : d_last - (last - first) + i = d_last - 1 := by omega
        rw [hidx]
        rw [move_backward_frame k _ _ _ _ _ (by omega) (by omega) (by omega) (by omega)]
        rw [strMove_dst]
        congr 1
        omega
      · have hidx : d_last - (last - first) + i = (d_last - 1) - ((last - 1) - first) + i := by
          omega
        rw [hidx]
        rw [ih _ _ _ _ (by omega) (by omega) (by omega) i (by omega)]
        exact strMove_ne _ _ _ _ (by omega) (by omega)

/-- Modelled from the spec: the `Account` entity of the inheritance demo.
Its class definition (`Account.h` / `Account.cpp`) is not part of src/ —
only the batch helpers of `src/inheritance/example/Account_util.cpp` that
call `account.deposit` / `account.withdraw` are.  Per the spec it holds a
balance (a `double`, embedded here as an exact rational). -/
structure Account where
  balance : Rat
deriving DecidableEq

/-- Modelled from the spec: `deposit(amount)` succeeds (mutates balance
upward, returns success) iff `amount > 0`; on failure the balance is left
unchanged. -/
def Account.deposit (acc : Account) (amount : Rat) : Bool × Account :=
  if 0 < amount then (true, { balance := acc.balance + amount })
  else (false, acc)

/-- Modelled from the spec: `withdraw(amount)` succeeds (mutates balance
downward) iff `amount > 0` and `amount ≤` current balance; on failure the
balance is left unchanged. -/
def Account.withdraw (acc : Account) (amount : Rat) : Bool × Account :=
  if 0 < amount ∧ amount ≤ acc.balance then (true, { balance := acc.balance - amount })
  else (false, acc)

/-- Modelled from the spec: `std::array<int, 5>::fill(v)` — assigns `v` to
every element; the container implementation is not part of this repository
(`src/standardTemplateLibrary/sequenceContainerArray/index.cpp` only calls
it).  The fixed-capacity sequence is embedded as a `List Int` whose length
never changes. -/
def arrFill (arr : List Int) (v : Int) : List Int := arr.map (fun _ => v)

/-- Modelled from the spec: `std::array::swap` — exchanges the whole
contents of two same-length sequences. -/
def arrSwap (a b : List Int) : List Int × List Int := (b, a)

/-- Insertion of an element into an ascending list, the auxiliary step of
the sort model. -/
def insertAsc (x : Int) : List Int → List Int
  | [] => [x]
  | y :: ys => if x ≤ y then x :: y :: ys else y :: insertAsc x ys

/-- Modelled from the spec: `std::sort(begin, end)` on an `int` sequence —
sorts ascending; the algorithm is not part of this repository.  Embedded as
insertion sort. -/
def arrSort : List Int → List Int
  | [] => []
  | x :: xs => insertAsc x (arrSort xs)

/-- Modelled from the spec: the heap/objects state for the owning string
wrapper `String` of `src/operatorOverloading/assignmentOperator(move)/String.h`.
Only the class declaration is in src/ (no `String.cpp`), so the assignment
operators are modelled from the spec's contract (§4.4).  `heap b` is the
contents of buffer `b` (`none` = freed), `nxt` is the allocation watermark
(every allocated buffer id is `< nxt`), and `objs i` is the buffer owned by
the `String` object living in slot `i`. -/
structure StrState where
  heap : Nat → Option (List Char)
  nxt : Nat
  objs : Nat → Nat

/-- The text held by the `String` object in slot `i` (empty if its buffer
is freed). -/
def bufText (st : StrState) (i : Nat) : List Char := (st.heap (st.objs i)).getD []

/-- `delete[] str;` — releasing buffer `b`. -/
def strFree (st : StrState) (b : Nat) : StrState :=
  { st with heap := fun x => if x = b then none else st.heap x }

/-- `str = new char[...]` — allocating a fresh buffer holding `content`;
returns the new state and the new buffer id. -/
def strAlloc (st : StrState) (content : List Char) : StrState × Nat :=
  ({ heap := fun x => if x = st.nxt then some content else st.heap x,
     nxt := st.nxt + 1,
     objs := st.objs }, st.nxt)

/-- Direct mutation of the buffer owned by the object in slot `i`
(writing through `str`). -/
def strWrite (st : StrState) (i : Nat) (content : List Char) : StrState :=
  { st with heap := fun x => if x = st.objs i then some content else st.heap x }

/-- Modelled from the spec: `String &String::operator=(const String &source)`
(copy assignment, `String.cpp` absent): guarded against self-assignment;
otherwise releases the old buffer and duplicates the source's buffer into a
freshly owned one.  `i` is `*this`'s slot and `j` the source's slot; the
`this == &source` test is `i = j`. -/
def strCopyAssign (st : StrState) (i j : Nat) : StrState :=
  if i = j then st
  else
    let contents := bufText st j
    let st1 := strFree st (st.objs i)
    let p := strAlloc st1 contents
    { p.1 with objs := fun x => if x = i then p.2 else p.1.objs x }

/-- Modelled from the spec: `String &String::operator=(String &&source)`
(move assignment, `String.cpp` absent): guarded against self-assignment;
otherwise releases the old buffer, takes ownership of the source's buffer,
and leaves the source empty (owning a fresh empty buffer, never dangling). -/
def strMoveAssign (st : StrState) (i j : Nat) : StrState :=
  if i = j then st
  else
    let st1 := strFree st (st.objs i)
    let tb := st1.objs j
    let p := strAlloc st1 []
    { p.1 with objs := fun x => if x = i then tb else if x = j then p.2 else p.1.objs x }

/-- Well-formedness of a pair of distinct `String` objects: both buffers are
allocated below the watermark, live, and not shared. -/
def wfPair (st : StrState) (i j : Nat) : Prop :=
  st.objs i < st.nxt ∧ st.objs j < st.nxt ∧ st.objs i ≠ st.objs j ∧
    (st.heap (st.objs i)).isSome ∧ (st.heap (st.objs j)).isSome

/-- C1: for every source range `[first, last)` and destination end-position
`d_last` such that the source range and the write range
`[d_last - (last - first), d_last)` do not overlap (and the write range fits
below `d_last`), `move_backward` relocates every source element, in the same
relative order, into the slots immediately preceding `d_last`, and returns
`d_last` minus the length of the source range. -/
theorem move_backward_nonoverlap_relocates (mem : Nat → List Char)
    (first last d_last : Nat) (hrange : first ≤ last) (hfit : last - first ≤ d_last)
    (hno : last ≤ d_last - (last - first) ∨ d_last ≤ first) :
    (move_backward mem first last d_last).2 = d_last - (last - first) ∧
    ∀ i < last - first,
      (move_backward mem first last d_last).1 (d_last - (last - first) + i) =
        mem (first + i) := by
  refine ⟨move_backward_snd (last - first) mem first last d_last (le_refl _), ?_⟩
  exact move_backward_get (last - first) mem first last d_last (le_refl _) hfit (by omega)

theorem move_backward_nonoverlap_relocates_w :
    (move_backward (fun x => if x = 0 then ['f'] else if x = 1 then ['b'] else ['z'])
        0 3 7).2 = 7 - (3 - 0) ∧
    ∀ i < 3 - 0,
      (move_backward (fun x => if x = 0 then ['f'] else if x = 1 then ['b'] else ['z'])
          0 3 7).1 (7 - (3 - 0) + i) =
        (fun x => if x = 0 then ['f'] else if x = 1 then ['b'] else ['z'] : Nat → List Char)
          (0 + i) :=
  move_backward_nonoverlap_relocates _ 0 3 7 (by omega) (by omega) (Or.inl (by omega))

/-- C2: in the overlapping self-range case (shifting a sub-range toward its
own tail, `last ≤ d_last`), `move_backward` preserves the relative order of
the moved sub-range, and no slot outside the union of the read range
`[first, last)` and the write range `[d_last - (last - first), d_last)` is
altered. -/
theorem move_backward_overlap_order_frame (mem : Nat → List Char)
    (first last d_last : Nat) (hrange : first ≤ last) (htail : last ≤ d_last) :
    (∀ i < last - first,
      (move_backward mem first last d_last).1 (d_last - (last - first) + i) =
        mem (first + i)) ∧
    (∀ x, (x < first ∨ last ≤ x) → (x < d_last - (last - first) ∨ d_last ≤ x) →
      (move_backward mem first last d_last).1 x = mem x) := by
  constructor
  · exact move_backward_get (last - first) mem first last d_last (le_refl _) (by omega)
      (Or.inl htail)
  · intro x hx1 hx2
    exact move_backward_frame (last - first) mem first last d_last x (le_refl _) (by omega)
      hx1 hx2

theorem move_backward_overlap_order_frame_w :
    (∀ i < 3 - 0,
      (move_backward
          (fun x => if x = 0 then ['s'] else if x = 1 then ['c'] else
            if x = 2 then ['p'] else if x = 3 then ['l'] else ['d'])
          0 3 5).1 (5 - (3 - 0) + i) =
        (fun x => if x = 0 then ['s'] else if x = 1 then ['c'] else
          if x = 2 then ['p'] else if x = 3 then ['l'] else ['d'] : Nat → List Char)
          (0 + i)) ∧
    (∀ x, (x < 0 ∨ 3 ≤ x) → (x < 5 - (3 - 0) ∨ 5 ≤ x) →
      (move_backward
          (fun x => if x = 0 then ['s'] else if x = 1 then ['c'] else
            if x = 2 then ['p'] else if x = 3 then ['l'] else ['d'])
          0 3 5).1 x =
        (fun x => if x = 0 then ['s'] else if x = 1 then ['c'] else
          if x = 2 then ['p'] else if x = 3 then ['l'] else ['d'] : Nat → List Char) x) :=
  move_backward_overlap_order_frame _ 0 3 5 (by omega) (by omega)

/-- C3: left-shifting a range of length `len` by `c` with `0 ≤ c < len`
leaves the first `len - c` slots equal to the original elements at offset
`c`, and every trailing slot either in the moved-from state
(`specified_state = false`) or unchanged (the spec calls the trailing
contents moved-from/unspecified); shifting by `c ≥ len` is a no-op. -/
theorem shift_left_behavior (mem : Nat → S) (len c : Nat) :
    (c < len →
      (∀ i, i < len - c → shift_left mem len c i = mem (i + c)) ∧
      (∀ i, len - c ≤ i → i < len →
        (shift_left mem len c i).specified_state = false ∨
          shift_left mem len c i = mem i)) ∧
    (len ≤ c → ∀ i, shift_left mem len c i = mem i) := by
  constructor
  · intro hc
    by_cases hc0 : c = 0
    · subst hc0
      refine ⟨fun i hi => by simp [shift_left], fun i hi1 hi2 => by omega⟩
    · have hsl : shift_left mem len c = moveSeq mem c len 0 := by
        unfold shift_left
        rw [if_neg hc0, if_neg (by omega)]
      constructor
      · intro i hi
        rw [hsl]
        have hg := moveSeq_get (len - c) mem c len 0 (by omega) (by omega) i (by omega)
        rw [Nat.zero_add] at hg
        rw [hg]
        congr 1
        omega
      · intro i hi1 hi2
        rw [hsl]
        by_cases hic : c ≤ i
        · left
          rw [moveSeq_movedFrom (len - c) mem c len 0 (by omega) (by omega) i (by omega)
            hic hi2]
        · right
          exact moveSeq_frame (len - c) mem c len 0 i (by omega) (by omega) (by omega)
  · intro hc i
    unfold shift_left
    by_cases hc0 : c = 0
    · rw [if_pos hc0]
    · rw [if_neg hc0, if_pos hc]

theorem shift_left_behavior_w :
    shift_left (fun i => S.ctor ((i : Int) + 1)) 7 3 0 =
      (fun i => S.ctor ((i : Int) + 1) : Nat → S) (0 + 3) ∧
    shift_left (fun i => S.ctor ((i : Int) + 1)) 7 8 2 =
      (fun i => S.ctor ((i : Int) + 1) : Nat → S) 2 :=
  ⟨((shift_left_behavior _ 7 3).1 (by omega)).1 0 (by omega),
   (shift_left_behavior _ 7 8).2 (by omega) 2⟩

/-- C4: `deposit(amount)` succeeds and increases the balance by `amount`
iff `amount > 0`; on failure the account is unchanged.  In particular
`deposit(100)` on a zero balance yields balance 100 and `deposit(-5)` fails
leaving the account unchanged. -/
theorem Account.deposit_spec (acc : Account) (amount : Rat) :
    ((acc.deposit amount).1 = true ↔ 0 < amount) ∧
    (0 < amount → (acc.deposit amount).2.balance = acc.balance + amount) ∧
    (¬ 0 < amount → (acc.deposit amount).2 = acc) ∧
    Account.deposit { balance := 0 } 100 = (true, { balance := 100 }) ∧
    Account.deposit acc (-5) = (false, acc) := by
  refine ⟨?_, ?_, ?_, ?_, ?_⟩
  · by_cases h : 0 < amount <;> simp [Account.deposit, h]
  · intro h
    simp [Account.deposit, h]
  · intro h
    simp [Account.deposit, h]
  · norm_num [Account.deposit]
  · norm_num [Account.deposit]

theorem Account.deposit_spec_w :
    (Account.deposit { balance := 0 } 100).2.balance = (0 : Rat) + 100 ∧
    (Account.deposit { balance := 7 } (-5)).2 = { balance := 7 } :=
  ⟨(Account.deposit_spec { balance := 0 } 100).2.1 (by norm_num),
   (Account.deposit_spec { balance := 7 } (-5)).2.2.1 (by norm_num)⟩

/-- C5: `withdraw(amount)` succeeds and decreases the balance by `amount`
iff `amount > 0` and `amount ≤` balance; on failure the account is
unchanged.  In particular `withdraw(50)` on balance 100 yields 50, and
`withdraw(150)` on balance 100 fails leaving balance 100. -/
theorem Account.withdraw_spec (acc : Account) (amount : Rat) :
    ((acc.withdraw amount).1 = true ↔ 0 < amount ∧ amount ≤ acc.balance) ∧
    (0 < amount ∧ amount ≤ acc.balance →
      (acc.withdraw amount).2.balance = acc.balance - amount) ∧
    (¬ (0 < amount ∧ amount ≤ acc.balance) → (acc.withdraw amount).2 = acc) ∧
    Account.withdraw { balance := 100 } 50 = (true, { balance := 50 }) ∧
    Account.withdraw { balance := 100 } 150 = (false, { balance := 100 }) := by
  refine ⟨?_, ?_, ?_, ?_, ?_⟩
  · by_cases h : 0 < amount ∧ amount ≤ acc.balance <;> simp [Account.withdraw, h]
  · intro h
    simp [Account.withdraw, h]
  · intro h
    simp [Account.withdraw, h]
  · norm_num [Account.withdraw]
  · norm_num [Account.withdraw]

theorem Account.withdraw_spec_w :
    (Account.withdraw { balance := 100 } 50).2.balance = (100 : Rat) - 50 ∧
    (Account.withdraw { balance := 100 } 150).2 = { balance := 100 } :=
  ⟨(Account.withdraw_spec { balance := 100 } 50).2.1 (by norm_num),
   (Account.withdraw_spec { balance := 100 } 150).2.2.1 (by norm_num)⟩

/-- C6 counterexample: copy assignment between two distinct `S` objects
whose flags differ (target's flag `false`, source's flag `true`) changes the
target's `specified_state` flag, refuting "copying an S (copy construction
or copy assignment) never changes the specified_state flag of either
object". -/
theorem copyS_changes_target_flag :
    ((copyS (fun x => if x = 0 then { value := 1, specified_state := false }
        else { value := 2, specified_state := true }) 0 1) 0).specified_state ≠
      ((fun x => if x = 0 then { value := 1, specified_state := false }
        else { value := 2, specified_state := true } : Nat → S) 0).specified_state := by
  decide

/-- C6 amended: after an `S` is moved from (move construction, or move
assignment into a distinct object), its `specified_state` flag becomes
`false`; copying never changes the flag of the SOURCE object (copy
construction yields an object equal to the source), while copy assignment
sets the TARGET's flag to the source's flag. -/
theorem S_move_copy_flag (mem : Nat → S) (i j : Nat) (hij : i ≠ j) (rhs : S) :
    ((moveS mem i j) j).specified_state = false ∧
    (S.moveCtor rhs).2.specified_state = false ∧
    S.copyCtor rhs = rhs ∧
    (copyS mem i j) j = mem j ∧
    ((copyS mem i j) i).specified_state = (mem j).specified_state := by
  refine ⟨?_, rfl, rfl, ?_, ?_⟩
  · rw [moveS_src _ _ _ hij]
  · simp [copyS, Ne.symm hij]
  · simp [copyS]

theorem S_move_copy_flag_w :
    ((moveS (fun _ => S.ctor 4) 0 1) 1).specified_state = false ∧
    (S.moveCtor (S.ctor 4)).2.specified_state = false ∧
    S.copyCtor (S.ctor 4) = S.ctor 4 ∧
    (copyS (fun _ => S.ctor 4) 0 1) 1 = (fun _ => S.ctor 4 : Nat → S) 1 ∧
    ((copyS (fun _ => S.ctor 4) 0 1) 0).specified_state =
      ((fun _ => S.ctor 4 : Nat → S) 1).specified_state :=
  S_move_copy_flag (fun _ => S.ctor 4) 0 1 (by decide) (S.ctor 4)

/-- C10: `S`'s move assignment between distinct objects leaves the source's
`value` field unchanged and only sets its `specified_state` flag to `false`;
self-move-assignment leaves the object entirely unchanged, its flag (when
`true`) remaining `true`. -/
theorem S_moveAssign_frame (mem : Nat → S) (i j : Nat) :
    (i ≠ j →
      ((moveS mem i j) j).value = (mem j).value ∧
      ((moveS mem i j) j).specified_state = false) ∧
    (moveS mem i i = mem ∧
      ((mem i).specified_state = true → ((moveS mem i i) i).specified_state = true)) := by
  refine ⟨?_, moveS_self mem i, ?_⟩
  · intro hij
    rw [moveS_src _ _ _ hij]
    exact ⟨rfl, rfl⟩
  · intro h
    rw [moveS_self]
    exact h

theorem S_moveAssign_frame_w :
    ((moveS (fun x => S.ctor ((x : Int))) 0 1) 1).value =
      ((fun x => S.ctor ((x : Int)) : Nat → S) 1).value ∧
    ((moveS (fun x => S.ctor ((x : Int))) 0 0) 0).specified_state = true :=
  ⟨((S_moveAssign_frame (fun x => S.ctor ((x : Int))) 0 1).1 (by decide)).1,
   (S_moveAssign_frame (fun x => S.ctor ((x : Int))) 0 0).2.2 (by decide)⟩

theorem strMoveAssign_objs (st : StrState) (i j : Nat) (hij : i ≠ j) (x : Nat) :
    (strMoveAssign st i j).objs x =
      if x = i then st.objs j else if x = j then st.nxt else st.objs x := by
  simp [strMoveAssign, hij, strFree, strAlloc]

theorem strMoveAssign_heap (st : StrState) (i j : Nat) (hij : i ≠ j) (x : Nat) :
    (strMoveAssign st i j).heap x =
      if x = st.nxt then some [] else if x = st.objs i then none else st.heap x := by
  simp [strMoveAssign, hij, strFree, strAlloc]

theorem strMoveAssign_nxt (st : StrState) (i j : Nat) (hij : i ≠ j) :
    (strMoveAssign st i j).nxt = st.nxt + 1 := by
  simp [strMoveAssign, hij, strFree, strAlloc]

theorem strCopyAssign_objs (st : StrState) (i j : Nat) (hij : i ≠ j) (x : Nat) :
    (strCopyAssign st i j).objs x = if x = i then st.nxt else st.objs x := by
  simp [strCopyAssign, hij, strFree, strAlloc]

theorem strCopyAssign_heap (st : StrState) (i j : Nat) (hij : i ≠ j) (x : Nat) :
    (strCopyAssign st i j).heap x =
      if x = st.nxt then some (bufText st j)
      else if x = st.objs i then none else st.heap x := by
  simp [strCopyAssign, hij, strFree, strAlloc]

/-- C7: for distinct, well-formed `String` objects `i` (target) and `j`
(source): after move assignment, the target holds the source's original
text, the source is empty, and the pair is still well formed (each owns a
live, unshared buffer — never double-freed or dangling); after copy
assignment the two objects own distinct buffers, the target holds the
source's text, and mutating the target's buffer leaves the source's text
unchanged (independent ownership). -/
theorem strAssign_move_copy (st : StrState) (i j : Nat) (hij : i ≠ j)
    (hwf : wfPair st i j) (content : List Char) :
    bufText (strMoveAssign st i j) i = bufText st j ∧
    bufText (strMoveAssign st i j) j = [] ∧
    wfPair (strMoveAssign st i j) i j ∧
    (strCopyAssign st i j).objs i ≠ (strCopyAssign st i j).objs j ∧
    bufText (strCopyAssign st i j) i = bufText st j ∧
    bufText (strWrite (strCopyAssign st i j) i content) j =
      bufText (strCopyAssign st i j) j := by
  obtain ⟨h1, h2, h3, h4, h5⟩ := hwf
  have hji : j ≠ i := Ne.symm hij
  have hojN : st.objs j ≠ st.nxt := by omega
  have hoji : st.objs j ≠ st.objs i := Ne.symm h3
  refine ⟨?_, ?_, ?_, ?_, ?_, ?_⟩
  · simp [bufText, strMoveAssign_objs st i j hij, strMoveAssign_heap st i j hij, hojN, hoji]
  · simp [bufText, strMoveAssign_objs st i j hij, strMoveAssign_heap st i j hij, hji]
  · unfold wfPair
    rw [strMoveAssign_nxt st i j hij]
    rw [strMoveAssign_objs st i j hij i, if_pos rfl]
    rw [strMoveAssign_objs st i j hij j, if_neg hji, if_pos rfl]
    rw [strMoveAssign_heap st i j hij, strMoveAssign_heap st i j hij]
    rw [if_neg hojN, if_neg hoji, if_pos rfl]
    refine ⟨by omega, by omega, hojN, h5, rfl⟩
  · rw [strCopyAssign_objs st i j hij i, if_pos rfl]
    rw [strCopyAssign_objs st i j hij j, if_neg hji]
    omega
  · simp [bufText, strCopyAssign_objs st i j hij, strCopyAssign_heap st i j hij]
  · simp [bufText, strWrite, strCopyAssign_objs st i j hij, hji, hojN]

theorem strAssign_move_copy_w :
    bufText (strMoveAssign
        { heap := fun x => if x = 0 then some ['a'] else if x = 1 then some ['b'] else none,
          nxt := 2, objs := fun x => if x = 0 then 0 else 1 } 0 1) 0 =
      bufText
        { heap := fun x => if x = 0 then some ['a'] else if x = 1 then some ['b'] else none,
          nxt := 2, objs := fun x => if x = 0 then 0 else 1 } 1 ∧
    bufText (strMoveAssign
        { heap := fun x => if x = 0 then some ['a'] else if x = 1 then some ['b'] else none,
          nxt := 2, objs := fun x => if x = 0 then 0 else 1 } 0 1) 1 = [] ∧
    wfPair (strMoveAssign
        { heap := fun x => if x = 0 then some ['a'] else if x = 1 then some ['b'] else none,
          nxt := 2, objs := fun x => if x = 0 then 0 else 1 } 0 1) 0 1 ∧
    (strCopyAssign
        { heap := fun x => if x = 0 then some ['a'] else if x = 1 then some ['b'] else none,
          nxt := 2, objs := fun x => if x = 0 then 0 else 1 } 0 1).objs 0 ≠
      (strCopyAssign
        { heap := fun x => if x = 0 then some ['a'] else if x = 1 then some ['b'] else none,
          nxt := 2, objs := fun x => if x = 0 then 0 else 1 } 0 1).objs 1 ∧
    bufText (strCopyAssign
        { heap := fun x => if x = 0 then some ['a'] else if x = 1 then some ['b'] else none,
          nxt := 2, objs := fun x => if x = 0 then 0 else 1 } 0 1) 0 =
      bufText
        { heap := fun x => if x = 0 then some ['a'] else if x = 1 then some ['b'] else none,
          nxt := 2, objs := fun x => if x = 0 then 0 else 1 } 1 ∧
    bufText (strWrite (strCopyAssign
        { heap := fun x => if x = 0 then some ['a'] else if x = 1 then some ['b'] else none,
          nxt := 2, objs := fun x => if x = 0 then 0 else 1 } 0 1) 0 ['z']) 1 =
      bufText (strCopyAssign
        { heap := fun x => if x = 0 then some ['a'] else if x = 1 then some ['b'] else none,
          nxt := 2, objs := fun x => if x = 0 then 0 else 1 } 0 1) 1 :=
  strAssign_move_copy
    { heap := fun x => if x = 0 then some ['a'] else if x = 1 then some ['b'] else none,
      nxt := 2, objs := fun x => if x = 0 then 0 else 1 } 0 1 (by decide)
    ⟨by decide, by decide, by decide, by decide, by decide⟩ ['z']

/-- C8: self-assignment of a `String` object, by the copy or by the move
assignment operator, leaves the whole state — in particular the object's
contents — unchanged (a safe no-op, no resource corruption). -/
theorem strAssign_self_noop (st : StrState) (i : Nat) :
    strCopyAssign st i i = st ∧ strMoveAssign st i i = st ∧
    bufText (strCopyAssign st i i) i = bufText st i ∧
    bufText (strMoveAssign st i i) i = bufText st i := by
  refine ⟨?_, ?_, ?_, ?_⟩ <;> simp [strCopyAssign, strMoveAssign]

theorem arrFill_replicate (a : List Int) (v : Int) :
    arrFill a v = List.replicate a.length v := by
  unfold arrFill
  induction a with
  | nil => rfl
  | cons y ys ih => simp_all [List.replicate_succ]

/-- C9: `fill(0)` on a length-5 sequence yields five zero elements; `swap`
between two same-length sequences exchanges their full contents; and
sorting `{1, 5, 3, 4, 2}` yields `{1, 2, 3, 4, 5}`. -/
theorem array_fill_swap_sort (a b : List Int) (h : a.length = 5) :
    arrFill a 0 = [0, 0, 0, 0, 0] ∧
    arrSwap a b = (b, a) ∧
    arrSort [1, 5, 3, 4, 2] = [1, 2, 3, 4, 5] := by
  refine ⟨?_, rfl, by decide⟩
  rw [arrFill_replicate, h]
  rfl

theorem array_fill_swap_sort_w :
    arrFill [1, 2, 3, 4, 5] 0 = [0, 0, 0, 0, 0] ∧
    arrSwap [1, 2, 3, 4, 5] [10, 20, 30, 40, 50] = ([10, 20, 30, 40, 50], [1, 2, 3, 4, 5]) ∧
    arrSort [1, 5, 3, 4, 2] = [1, 2, 3, 4, 5] :=
  array_fill_swap_sort [1, 2, 3, 4, 5] [10, 20, 30, 40, 50] (by decide)

end BasicsCpp
